import Mathlib

/-!
Shallow embedding of the catalog storage layer of the niobium photo
gallery (src/db.rs) and proofs of the specification claims about it.

The storage engine is SQLite, accessed through rusqlite.  SQLite values
relevant to this layer are integers, text and NULL; a table row of the
photo table is a tuple of 20 such values in the fixed schema order
consumed by the row mapper.  The database state is the list of rows in
storage (insertion) order together with the next storage-assigned key.

The tokio mutex guarding the single connection serializes operations, so
the observable behaviour of any set of concurrent callers is that of some
sequential execution order; concurrency claims are stated by quantifying
over all such orders.
-/

namespace Niobium

/-- SQLite storage value as seen by this layer: INTEGER, TEXT or NULL. -/
inductive Value : Type where
  | Null : Value
  | Int (i : Int) : Value
  | Text (s : String) : Value
deriving DecidableEq

/-- Modelled from the spec: the crate-root Error enum (its definition is not
under src/; db.rs only wraps rusqlite errors as Error::DatabaseError).  The
kind distinguishes a uniqueness-constraint violation from malformed SQL at
statement preparation, per the spec error taxonomy. -/
inductive DbErrorKind : Type where
  | constraintViolation : DbErrorKind
  | malformedSql : DbErrorKind
deriving DecidableEq

/-- Modelled from the spec: structured error returned by the storage layer. -/
inductive Error : Type where
  | DatabaseError (kind : DbErrorKind) : Error
deriving DecidableEq

/-- Per-row decode error produced inside a rusqlite row-mapping closure
(invalid type coercion, e.g. reading a String out of a NULL column). -/
inductive RowError : Type where
  | invalidColumnType : RowError
deriving DecidableEq

/-- Outcome of a query operation.  The Rust query functions return
Result, but additionally call Result::unwrap on every mapped row
(src/db.rs lines 61, 83, 112, 140), so a per-row decode failure panics
instead of being returned; panicked models that outcome. -/
inductive QueryResult (α : Type) : Type where
  | ok (val : α) : QueryResult α
  | err (e : Error) : QueryResult α
  | panicked : QueryResult α
deriving DecidableEq

/-- Modelled from the spec: the Photo entity (src/photos.rs is not under
src/).  Field names and their schema order come from the row mapper in
db.rs; field types are type-appropriate per the spec data model (strings
for names/paths/identifiers/text metadata, integers for numeric metadata,
booleans for flags), with absent values taking zero/empty/false defaults. -/
structure Photo : Type where
  id : Int
  filename : String
  path : String
  uid : String
  md5 : String
  sort_order : Int
  hidden : Bool
  metadata_parsed : Bool
  width : Int
  height : Int
  color : String
  title : String
  place : String
  date_taken : String
  camera_model : String
  lens_mode : String
  focal_length : String
  aperture : String
  exposure_time : String
  sensitivity : Int
deriving DecidableEq

/-- The all-defaults Photo: zero/empty/false in every field. -/
def Photo.blank : Photo :=
  { id := 0, filename := "", path := "", uid := "", md5 := "",
    sort_order := 0, hidden := false, metadata_parsed := false,
    width := 0, height := 0, color := "", title := "", place := "",
    date_taken := "", camera_model := "", lens_mode := "",
    focal_length := "", aperture := "", exposure_time := "",
    sensitivity := 0 }

instance : Inhabited Photo := ⟨Photo.blank⟩

/-- One stored row of the photo table: the 20 columns, in the schema order
consumed by row_to_photo, each holding a dynamic SQLite value. -/
structure RawRow : Type where
  id : Value
  filename : Value
  path : Value
  uid : Value
  md5 : Value
  sort_order : Value
  hidden : Value
  metadata_parsed : Value
  width : Value
  height : Value
  color : Value
  title : Value
  place : Value
  date_taken : Value
  camera_model : Value
  lens_mode : Value
  focal_length : Value
  aperture : Value
  exposure_time : Value
  sensitivity : Value
deriving DecidableEq

/-- Database state: the photo table rows in storage order, plus the next
storage-assigned surrogate key. -/
structure Db : Type where
  rows : List RawRow
  nextId : Int
deriving DecidableEq

/-- rusqlite FromSql for String: succeeds exactly on TEXT values. -/
def getString : Value → Except RowError String
  | .Text s => .ok s
  | _ => .error .invalidColumnType

/-- rusqlite FromSql for i64: succeeds exactly on INTEGER values. -/
def getInt : Value → Except RowError Int
  | .Int i => .ok i
  | _ => .error .invalidColumnType

/-- rusqlite FromSql for bool: an INTEGER compared against zero. -/
def getBool : Value → Except RowError Bool
  | .Int i => .ok (i != 0)
  | _ => .error .invalidColumnType

/-- Deserialize an SQL row into a Photo, reading the columns in the fixed
schema order, exactly as row_to_photo in src/db.rs lines 203-227; any
type-coercion failure is returned as a per-row decode error. -/
def row_to_photo (r : RawRow) : Except RowError Photo := do
  let id ← getInt r.id
  let filename ← getString r.filename
  let path ← getString r.path
  let uid ← getString r.uid
  let md5 ← getString r.md5
  let sort_order ← getInt r.sort_order
  let hidden ← getBool r.hidden
  let metadata_parsed ← getBool r.metadata_parsed
  let width ← getInt r.width
  let height ← getInt r.height
  let color ← getString r.color
  let title ← getString r.title
  let place ← getString r.place
  let date_taken ← getString r.date_taken
  let camera_model ← getString r.camera_model
  let lens_mode ← getString r.lens_mode
  let focal_length ← getString r.focal_length
  let aperture ← getString r.aperture
  let exposure_time ← getString r.exposure_time
  let sensitivity ← getInt r.sensitivity
  pure { id := id, filename := filename, path := path, uid := uid,
         md5 := md5, sort_order := sort_order, hidden := hidden,
         metadata_parsed := metadata_parsed, width := width,
         height := height, color := color, title := title, place := place,
         date_taken := date_taken, camera_model := camera_model,
         lens_mode := lens_mode, focal_length := focal_length,
         aperture := aperture, exposure_time := exposure_time,
         sensitivity := sensitivity }

/-- The canonical stored row holding exactly the data of a Photo (strings
as TEXT, integers as INTEGER, booleans as INTEGER 1/0). -/
def Photo.encodeRow (p : Photo) : RawRow :=
  { id := .Int p.id, filename := .Text p.filename, path := .Text p.path,
    uid := .Text p.uid, md5 := .Text p.md5,
    sort_order := .Int p.sort_order,
    hidden := .Int (if p.hidden then 1 else 0),
    metadata_parsed := .Int (if p.metadata_parsed then 1 else 0),
    width := .Int p.width, height := .Int p.height,
    color := .Text p.color, title := .Text p.title,
    place := .Text p.place, date_taken := .Text p.date_taken,
    camera_model := .Text p.camera_model, lens_mode := .Text p.lens_mode,
    focal_length := .Text p.focal_length, aperture := .Text p.aperture,
    exposure_time := .Text p.exposure_time,
    sensitivity := .Int p.sensitivity }

/-- A well-formed database: every stored row is the canonical encoding of
some Photo record (correct column types, canonical boolean flags). -/
def Db.WF (db : Db) : Prop := ∀ r ∈ db.rows, ∃ p : Photo, p.encodeRow = r

/-- The Photo records held in the database, in storage order (rows that do
not decode are skipped; in a well-formed database all rows decode). -/
def Db.photos (db : Db) : List Photo :=
  db.rows.filterMap (fun r => (row_to_photo r).toOption)

/-- The uid strings held in the database, in storage order (uid columns
that are not TEXT are skipped; well-formed databases have TEXT uids). -/
def Db.uidList (db : Db) : List String :=
  db.rows.filterMap (fun r => (getString r.uid).toOption)

/-- Decode a list of TEXT values into strings, stopping at the first
failure, as the rusqlite mapped-rows iterator does. -/
def decodeStrings : List Value → Except RowError (List String)
  | [] => .ok []
  | v :: vs =>
    match getString v with
    | .ok s =>
      match decodeStrings vs with
      | .ok l => .ok (s :: l)
      | .error e => .error e
    | .error e => .error e

/-- Decode a list of rows into Photos, stopping at the first failure, as
the rusqlite mapped-rows iterator does. -/
def decodeRows : List RawRow → Except RowError (List Photo)
  | [] => .ok []
  | r :: rs =>
    match row_to_photo r with
    | .ok p =>
      match decodeRows rs with
      | .ok l => .ok (p :: l)
      | .error e => .error e
    | .error e => .error e

/-- SELECT uid FROM photo, each row unwrapped (a non-TEXT uid panics):
get_existing_uids in src/db.rs lines 51-65. -/
def get_existing_uids (db : Db) : QueryResult (List String) :=
  match decodeStrings (db.rows.map RawRow.uid) with
  | .ok l => .ok l
  | .error _ => .panicked

/-- SQLite SUBSTR(v, 1, n) compared for equality against TEXT s: NULL
never compares equal; an INTEGER is rendered as its decimal text. -/
def Value.substrEq (v : Value) (n : Nat) (s : String) : Bool :=
  match v with
  | .Text t => t.take n == s
  | .Int i => (toString i).take n == s
  | .Null => false

/-- SELECT path FROM photo WHERE SUBSTR(path, 1, n)=p GROUP BY path, with
n the character count of p, each output row unwrapped (a non-TEXT path
value panics): get_paths_starting_with in src/db.rs lines 69-87.  GROUP BY
collapses duplicate path values; their output order is engine-chosen, so
the model picks one deduplicated order. -/
def get_paths_starting_with (db : Db) (p : String) : QueryResult (List String) :=
  match decodeStrings (((db.rows.filter (fun r => r.path.substrEq p.length p)).map RawRow.path).dedup) with
  | .ok l => .ok l
  | .error _ => .panicked

/-- SELECT * FROM photo WHERE path IN (?,...,?) with one placeholder per
given path, each row unwrapped (a row that fails to decode panics):
get_photos_in_paths in src/db.rs lines 91-116.  With zero paths the built
statement is WHERE path IN (), which SQLite accepts and evaluates to
false for every row, so the query prepares fine and selects nothing. -/
def get_photos_in_paths (db : Db) (paths : List String) : QueryResult (List Photo) :=
  match decodeRows (db.rows.filter (fun r => paths.any (fun p => r.path == .Text p))) with
  | .ok l => .ok l
  | .error _ => .panicked

/-- The column names of the photo table, in schema order. -/
def photoColumns : List String :=
  ["id", "filename", "path", "uid", "md5", "sort_order", "hidden",
   "metadata_parsed", "width", "height", "color", "title", "place",
   "date_taken", "camera_model", "lens_mode", "focal_length", "aperture",
   "exposure_time", "sensitivity"]

/-- The stored value of the named column of a row. -/
def RawRow.colVal (r : RawRow) : String → Value
  | "id" => r.id
  | "filename" => r.filename
  | "path" => r.path
  | "uid" => r.uid
  | "md5" => r.md5
  | "sort_order" => r.sort_order
  | "hidden" => r.hidden
  | "metadata_parsed" => r.metadata_parsed
  | "width" => r.width
  | "height" => r.height
  | "color" => r.color
  | "title" => r.title
  | "place" => r.place
  | "date_taken" => r.date_taken
  | "camera_model" => r.camera_model
  | "lens_mode" => r.lens_mode
  | "focal_length" => r.focal_length
  | "aperture" => r.aperture
  | "exposure_time" => r.exposure_time
  | "sensitivity" => r.sensitivity
  | _ => .Null

/-- Three-way comparison from a linear order. -/
def cmpLin {α : Type} [LinearOrder α] (a b : α) : Ordering :=
  if a < b then .lt else if b < a then .gt else .eq

/-- SQLite ordering of storage values: NULL before INTEGER before TEXT;
integers numerically, text by the BINARY collation (modelled by the string
order). -/
def Value.compareSql : Value → Value → Ordering
  | .Null, .Null => .eq
  | .Null, _ => .lt
  | _, .Null => .gt
  | .Int i, .Int j => cmpLin i j
  | .Int _, .Text _ => .lt
  | .Text _, .Int _ => .gt
  | .Text s, .Text t => cmpLin s t

/-- Lexicographic comparison of two rows over an ordered list of column
names, each column ascending. -/
def cmpRows : List String → RawRow → RawRow → Ordering
  | [], _, _ => .eq
  | c :: cs, r1, r2 =>
    match Value.compareSql (r1.colVal c) (r2.colVal c) with
    | .eq => cmpRows cs r1 r2
    | o => o

/-- Row order produced by the ORDER BY clause built in get_photos_in_path:
every listed column ascending, or every listed column descending when the
reverse flag is set. -/
def rowLe (cols : List String) (rev : Bool) (r1 r2 : RawRow) : Bool :=
  if rev then cmpRows cols r1 r2 != Ordering.lt
  else cmpRows cols r1 r2 != Ordering.gt

/-- The same order on decoded Photo records, comparing their canonical
stored values. -/
def photoLe (cols : List String) (rev : Bool) (p1 p2 : Photo) : Bool :=
  rowLe cols rev p1.encodeRow p2.encodeRow

/-- SELECT * FROM photo WHERE path=? ORDER BY c1 DIR, ..., ck DIR with the
caller-supplied column names interpolated verbatim and DIR uniformly ASC,
or DESC when the reverse flag is set; each row unwrapped (a row that fails
to decode panics): get_photos_in_path in src/db.rs lines 120-144.  With no
sort columns the statement ends in ORDER BY ; and fails to prepare; the
model returns a prepare error then, and also when a supplied name is not a
column of the table (for such names the engine outcome depends on how it
parses the interpolated text; the claims only use genuine column names).
Ties beyond the sort columns are returned in an engine-chosen order, here
storage order. -/
def get_photos_in_path (db : Db) (p : String) (sort_columns : List String)
    (reverse_sort_order : Bool) : QueryResult (List Photo) :=
  if sort_columns.isEmpty || !(sort_columns.all (fun c => photoColumns.contains c)) then
    .err (.DatabaseError .malformedSql)
  else
    match decodeRows ((db.rows.filter (fun r => r.path == .Text p)).mergeSort
        (rowLe sort_columns reverse_sort_order)) with
    | .ok l => .ok l
    | .error _ => .panicked

/-- The row written by INSERT INTO photo(filename, path, uid, md5): the
four bound fields, the storage-assigned key, and schema defaults
(zero/empty/false) for every other column. -/
def insertedRow (nextId : Int) (p : Photo) : RawRow :=
  Photo.encodeRow { Photo.blank with
                    id := nextId
                    filename := p.filename
                    path := p.path
                    uid := p.uid
                    md5 := p.md5 }

/-- Execute the prepared INSERT for one photo: the uniqueness constraint
on uid (declared by the schema) rejects a duplicate with a constraint
error; otherwise the row is appended in storage order. -/
def insertOne (db : Db) (p : Photo) : Db × Option Error :=
  if db.rows.any (fun r => r.uid == .Text p.uid) then
    (db, some (.DatabaseError .constraintViolation))
  else
    ({ rows := db.rows ++ [insertedRow db.nextId p], nextId := db.nextId + 1 }, none)

/-- INSERT each photo of the batch in order with one prepared statement,
returning at the first failing element with the earlier elements already
committed (no transaction wraps the batch): insert_photos in src/db.rs
lines 148-163. -/
def insert_photos : Db → List Photo → Db × Except Error Unit
  | db, [] => (db, .ok ())
  | db, p :: ps =>
    match insertOne db p with
    | (db1, none) => insert_photos db1 ps
    | (db1, some e) => (db1, .error e)

/-- DELETE FROM photo WHERE uid=? for each photo of the batch; a delete
matching zero rows is not an error: remove_photos in src/db.rs
lines 167-181. -/
def remove_photos : Db → List Photo → Db × Except Error Unit
  | db, [] => (db, .ok ())
  | db, p :: ps =>
    remove_photos
      { db with rows := db.rows.filter (fun r => !(r.uid == .Text p.uid)) } ps

/-- UPDATE photo SET filename=?, path=? WHERE uid=? for each pair of the
batch, taking the new filename and path from the second component and the
uid from the first; an update matching zero rows is not an error:
move_photos in src/db.rs lines 185-199. -/
def move_photos : Db → List (Photo × Photo) → Db × Except Error Unit
  | db, [] => (db, .ok ())
  | db, pair :: ps =>
    move_photos
      { db with rows := db.rows.map (fun r =>
          if r.uid == .Text pair.1.uid then
            { r with filename := .Text pair.2.filename, path := .Text pair.2.path }
          else r) } ps

/-- N callers each inserting one photo through the guarded connection: the
mutex serializes them, so their combined effect is that of executing the
single-photo inserts sequentially in arrival order; the list argument
ranges over all arrival orders. -/
def runInserts : Db → List Photo → Db × List (Except Error Unit)
  | db, [] => (db, [])
  | db, p :: ps =>
    let step := insert_photos db [p]
    let rest := runInserts step.1 ps
    (rest.1, step.2 :: rest.2)

instance {ε α : Type} [DecidableEq ε] [DecidableEq α] : DecidableEq (Except ε α) := fun x y =>
  match x, y with
  | .ok a, .ok b =>
    if h : a = b then isTrue (by rw [h]) else isFalse (fun hc => h (Except.ok.inj hc))
  | .error e, .error f =>
    if h : e = f then isTrue (by rw [h]) else isFalse (fun hc => h (Except.error.inj hc))
  | .ok _, .error _ => isFalse (fun hc => Except.noConfusion hc)
  | .error _, .ok _ => isFalse (fun hc => Except.noConfusion hc)

/-- The Photo decoded from a row (blank for rows that do not decode). -/
def decPhoto (r : RawRow) : Photo := (row_to_photo r).toOption.getD Photo.blank

/-- The string decoded from a TEXT value (empty for other values). -/
def decText (v : Value) : String := (getString v).toOption.getD ""

theorem row_to_photo_encodeRow (p : Photo) : row_to_photo p.encodeRow = .ok p := by
  cases p with
  | mk id filename path uid md5 so hid mp w hgt c t pl dt cm lm fl ap et sens =>
    cases hid <;> cases mp <;> rfl

theorem decPhoto_encodeRow (p : Photo) : decPhoto p.encodeRow = p := by
  simp [decPhoto, row_to_photo_encodeRow, Except.toOption]

theorem decodeRows_ok_of_wf (rs : List RawRow)
    (h : ∀ r ∈ rs, ∃ p : Photo, p.encodeRow = r) :
    decodeRows rs = .ok (rs.map decPhoto) := by
  induction rs with
  | nil => rfl
  | cons r rs ih =>
    obtain ⟨p, hp⟩ := h r (by simp)
    have hrest := ih (fun x hx => h x (by simp [hx]))
    simp [decodeRows, hrest, ← hp, row_to_photo_encodeRow, decPhoto_encodeRow]

theorem decodeStrings_ok_of_text (vs : List Value)
    (h : ∀ v ∈ vs, ∃ s : String, v = .Text s) :
    decodeStrings vs = .ok (vs.map decText) := by
  induction vs with
  | nil => rfl
  | cons v vs ih =>
    obtain ⟨s, hs⟩ := h v (by simp)
    have hrest := ih (fun x hx => h x (by simp [hx]))
    simp [decodeStrings, hrest, hs, getString, decText, Except.toOption]

theorem insertOne_dup (db : Db) (p : Photo)
    (h : ∃ r ∈ db.rows, r.uid = .Text p.uid) :
    insertOne db p = (db, some (.DatabaseError .constraintViolation)) := by
  obtain ⟨r, hr, hu⟩ := h
  have hany : db.rows.any (fun r => r.uid == .Text p.uid) = true := by
    rw [List.any_eq_true]
    exact ⟨r, hr, by simp [hu]⟩
  simp [insertOne, hany]

theorem insertOne_fresh (db : Db) (p : Photo)
    (h : ∀ r ∈ db.rows, r.uid ≠ .Text p.uid) :
    insertOne db p =
      ({ rows := db.rows ++ [insertedRow db.nextId p], nextId := db.nextId + 1 }, none) := by
  have hany : db.rows.any (fun r => r.uid == .Text p.uid) = false := by
    rw [List.any_eq_false]
    intro r hr
    simp [h r hr]
  simp [insertOne, hany]

/-- C1: for the empty input list, get_photos_in_paths does not crash and
returns Ok with an empty sequence of photos; the zero-placeholder query
WHERE path IN () it issues is accepted by SQLite (an empty IN list simply
matches nothing), so no malformed-query error arises. -/
theorem get_photos_in_paths_empty_ok (db : Db) :
    get_photos_in_paths db [] = .ok [] := by
  simp [get_photos_in_paths, decodeRows]

/-- A stored row whose filename column is NULL at path /p: it fails to
decode when a query maps it to a Photo. -/
def nullFilenameRow : RawRow :=
  { Photo.blank.encodeRow with filename := .Null, path := .Text "/p" }

/-- A catalog state containing the malformed row. -/
def malformedDb : Db := ⟨[nullFilenameRow], 1⟩

/-- C2: the claim and the spec say a row decode failure is returned to the
caller as a structured error, but the code calls Result::unwrap on every
mapped row (src/db.rs lines 112 and 140), so on a catalog holding a row
whose filename column is NULL both photo queries panic instead of
returning an error: the claim is right and the code is a slip, since both
functions are typed to return a structured error and map every other
failure into it. -/
theorem row_decode_failure_panics :
    get_photos_in_paths malformedDb ["/p"] = .panicked ∧
    get_photos_in_path malformedDb "/p" ["filename"] false = .panicked := by
  refine ⟨rfl, ?_⟩
  have h1 : malformedDb.rows.filter (fun r => r.path == .Text "/p") = [nullFilenameRow] := rfl
  simp [get_photos_in_path, h1, List.mergeSort_singleton, decodeRows, nullFilenameRow,
        row_to_photo, getInt, getString, getBool, Photo.encodeRow, Photo.blank,
        photoColumns, Bind.bind, Except.bind]

/-- C3: inserting a photo whose uid already exists in the catalog returns
a constraint-violation error and leaves the whole catalog state, in
particular the pre-existing record with that uid, unchanged. -/
theorem insert_duplicate_uid_errors (db : Db) (p : Photo)
    (h : ∃ r ∈ db.rows, r.uid = .Text p.uid) :
    insert_photos db [p] = (db, .error (.DatabaseError .constraintViolation)) := by
  simp [insert_photos, insertOne_dup db p h]

theorem insert_duplicate_uid_errors_witness :
    insert_photos ⟨[Photo.blank.encodeRow], 1⟩ [Photo.blank] =
      (⟨[Photo.blank.encodeRow], 1⟩, .error (.DatabaseError .constraintViolation)) :=
  insert_duplicate_uid_errors _ _ ⟨Photo.blank.encodeRow, by simp, rfl⟩

/-- C6: removing a photo whose uid is not in the catalog, or moving one,
succeeds with Ok and leaves the catalog completely unchanged; a zero-row
delete or update is a silent no-op. -/
theorem remove_move_missing_uid_noop (db : Db) (p q : Photo)
    (h : ∀ r ∈ db.rows, r.uid ≠ .Text p.uid) :
    remove_photos db [p] = (db, .ok ()) ∧ move_photos db [(p, q)] = (db, .ok ()) := by
  constructor
  · have hf : db.rows.filter (fun r => !(r.uid == .Text p.uid)) = db.rows := by
      rw [List.filter_eq_self]
      intro r hr
      simp [h r hr]
    simp [remove_photos, hf]
  · have hm : ∀ rows : List RawRow, (∀ r ∈ rows, r.uid ≠ .Text p.uid) →
        rows.map (fun r =>
          if r.uid == .Text p.uid then
            { r with filename := .Text q.filename, path := .Text q.path }
          else r) = rows := by
      intro rows hrows
      induction rows with
      | nil => rfl
      | cons a l ih =>
        rw [List.map_cons, ih (fun x hx => hrows x (by simp [hx]))]
        simp [hrows a (by simp)]
    simp only [move_photos]
    rw [hm db.rows h]

/-- C8: when element k of an insert batch fails, the operation returns
that element's error while the effects of elements 1..k-1 stay committed:
no outer transaction wraps the batch, and the loop stops at the failure,
so the state returned is exactly the one after the successful elements.
Insert is the one batch mutation with a failing mode in the model
(a delete or update matching zero rows succeeds), so it carries the whole
content of the claim. -/
theorem batch_failure_keeps_committed (db db1 : Db) (pre : List Photo)
    (bad : Photo) (suf : List Photo)
    (hpre : insert_photos db pre = (db1, .ok ()))
    (hbad : ∃ r ∈ db1.rows, r.uid = .Text bad.uid) :
    insert_photos db (pre ++ (bad :: suf)) =
      (db1, .error (.DatabaseError .constraintViolation)) := by
  induction pre generalizing db with
  | nil =>
    simp only [insert_photos, Prod.mk.injEq] at hpre
    obtain ⟨h1, -⟩ := hpre
    subst h1
    simp [insert_photos, insertOne_dup _ bad hbad]
  | cons a l ih =>
    rw [List.cons_append]
    simp only [insert_photos] at hpre ⊢
    rcases hio : insertOne db a with ⟨db2, res⟩
    rw [hio] at hpre
    cases res with
    | none => exact ih db2 hpre
    | some e => simp at hpre

/-- A concrete three-element batch whose middle element collides on uid
with the first. -/
def phW (f p u : String) : Photo :=
  { Photo.blank with filename := f, path := p, uid := u, md5 := "m" }

def preW : List Photo := [phW "1.jpg" "/a" "u1"]

def badW : Photo := phW "2.jpg" "/b" "u1"

def sufW : List Photo := [phW "3.jpg" "/c" "u3"]

def db1W : Db := (insert_photos ⟨[], 1⟩ preW).1

theorem batch_failure_keeps_committed_witness :
    insert_photos ⟨[], 1⟩ (preW ++ (badW :: sufW)) =
      (db1W, .error (.DatabaseError .constraintViolation)) :=
  batch_failure_keeps_committed ⟨[], 1⟩ db1W preW badW sufW (by decide)
    ⟨insertedRow 1 (phW "1.jpg" "/a" "u1"), by decide, by decide⟩

theorem paths_starting_with_spec (db : Db) (p : String)
    (h : ∀ r ∈ db.rows, ∃ s : String, r.path = .Text s) :
    ∃ l, get_paths_starting_with db p = .ok l ∧ l.Nodup ∧
      ∀ s : String, s ∈ l ↔
        ∃ r ∈ db.rows, r.path = .Text s ∧ s.take p.length = p := by
  have hmem : ∀ v ∈ (db.rows.filter (fun r => r.path.substrEq p.length p)).map RawRow.path,
      ∃ s : String, v = .Text s := by
    intro v hv
    rw [List.mem_map] at hv
    obtain ⟨r, hr, hrv⟩ := hv
    obtain ⟨s, hs⟩ := h r (List.mem_of_mem_filter hr)
    exact ⟨s, by rw [← hrv, hs]⟩
  have hg : ∀ v ∈ ((db.rows.filter (fun r => r.path.substrEq p.length p)).map RawRow.path).dedup,
      ∃ s : String, v = .Text s := fun v hv => hmem v (List.mem_dedup.mp hv)
  have hdec := decodeStrings_ok_of_text _ hg
  refine ⟨(((db.rows.filter (fun r => r.path.substrEq p.length p)).map RawRow.path).dedup).map decText,
    ?_, ?_, ?_⟩
  · simp only [get_paths_starting_with]
    rw [hdec]
  · refine List.Nodup.map_on ?_ (List.nodup_dedup _)
    intro x hx y hy hxy
    obtain ⟨sx, hsx⟩ := hg x hx
    obtain ⟨sy, hsy⟩ := hg y hy
    subst hsx hsy
    simp [decText, getString, Except.toOption] at hxy
    rw [hxy]
  · intro s
    rw [List.mem_map]
    constructor
    · rintro ⟨v, hv, hvs⟩
      obtain ⟨sv, hsv⟩ := hg v hv
      subst hsv
      simp [decText, getString, Except.toOption] at hvs
      subst hvs
      rw [List.mem_dedup, List.mem_map] at hv
      obtain ⟨r, hr, hrv⟩ := hv
      rw [List.mem_filter] at hr
      refine ⟨r, hr.1, hrv, ?_⟩
      have h2 := hr.2
      rw [hrv] at h2
      simpa [Value.substrEq] using h2
    · rintro ⟨r, hr, hrs, htake⟩
      refine ⟨.Text s, ?_, by simp [decText, getString, Except.toOption]⟩
      rw [List.mem_dedup, List.mem_map]
      exact ⟨r, List.mem_filter.mpr ⟨hr, by simp [hrs, Value.substrEq, htake]⟩, hrs⟩

/-- C4: get_paths_starting_with returns, without duplicates, exactly the
stored path strings whose first len(p) characters equal p; the match is
character-exact and not segment-aware, so with records at /a/b, /a/bc and
/a/b/c the query for /a/b returns all three (the witness checks that
instance). -/
theorem paths_starting_with_exact (db : Db) (p : String)
    (h : ∀ r ∈ db.rows, ∃ s : String, r.path = .Text s) :
    ∃ l, get_paths_starting_with db p = .ok l ∧ l.Nodup ∧
      ∀ s : String, s ∈ l ↔
        ∃ r ∈ db.rows, r.path = .Text s ∧ s.take p.length = p :=
  paths_starting_with_spec db p h

/-- Catalog with records at paths /a/b, /a/bc and /a/b/c. -/
def exampleDb : Db :=
  ⟨[(phW "1.jpg" "/a/b" "u1").encodeRow, (phW "2.jpg" "/a/bc" "u2").encodeRow,
    (phW "3.jpg" "/a/b/c" "u3").encodeRow], 4⟩

theorem paths_starting_with_exact_witness :
    (∃ l, get_paths_starting_with exampleDb "/a/b" = .ok l ∧ l.Nodup ∧
      ∀ s : String, s ∈ l ↔
        ∃ r ∈ exampleDb.rows, r.path = .Text s ∧
          s.take ("/a/b" : String).length = "/a/b") ∧
    get_paths_starting_with exampleDb "/a/b" = .ok ["/a/b", "/a/bc", "/a/b/c"] := by
  constructor
  · refine paths_starting_with_exact exampleDb "/a/b" ?_
    intro r hr
    simp [exampleDb] at hr
    rcases hr with h | h | h <;> subst h <;> exact ⟨_, rfl⟩
  · decide

/-- C10: with the empty string as search argument every stored path
matches (its zero-character head is the empty string), so the query
returns exactly the distinct path values present in the catalog. -/
theorem paths_starting_with_empty_all (db : Db)
    (h : ∀ r ∈ db.rows, ∃ s : String, r.path = .Text s) :
    ∃ l, get_paths_starting_with db "" = .ok l ∧ l.Nodup ∧
      ∀ s : String, s ∈ l ↔ ∃ r ∈ db.rows, r.path = .Text s := by
  obtain ⟨l, h1, h2, h3⟩ := paths_starting_with_spec db "" h
  refine ⟨l, h1, h2, fun s => ?_⟩
  rw [h3 s]
  constructor
  · rintro ⟨r, hr, hrs, _⟩
    exact ⟨r, hr, hrs⟩
  · rintro ⟨r, hr, hrs⟩
    exact ⟨r, hr, hrs, rfl⟩

theorem paths_starting_with_empty_all_witness :
    ∃ l, get_paths_starting_with exampleDb "" = .ok l ∧ l.Nodup ∧
      ∀ s : String, s ∈ l ↔ ∃ r ∈ exampleDb.rows, r.path = .Text s := by
  refine paths_starting_with_empty_all exampleDb ?_
  intro r hr
  simp [exampleDb] at hr
  rcases hr with h | h | h <;> subst h <;> exact ⟨_, rfl⟩

theorem cmpLin_lt_iff {α : Type} [LinearOrder α] (a b : α) :
    cmpLin a b = .lt ↔ a < b := by
  unfold cmpLin
  split_ifs with h1 h2 <;> simp_all

theorem cmpLin_gt_iff {α : Type} [LinearOrder α] (a b : α) :
    cmpLin a b = .gt ↔ b < a := by
  unfold cmpLin
  split_ifs with h1 h2 <;> simp_all
  exact le_of_lt h1

theorem cmpLin_eq_iff {α : Type} [LinearOrder α] (a b : α) :
    cmpLin a b = .eq ↔ a = b := by
  unfold cmpLin
  split_ifs with h1 h2 <;> simp_all
  · exact ne_of_lt h1
  · exact (ne_of_lt h2).symm
  · exact le_antisymm h2 h1

theorem compareSql_eq_iff (v w : Value) : Value.compareSql v w = .eq ↔ v = w := by
  cases v <;> cases w <;> simp [Value.compareSql, cmpLin_eq_iff]

theorem compareSql_refl (v : Value) : Value.compareSql v v = .eq :=
  (compareSql_eq_iff v v).mpr rfl

theorem cmpLin_swap {α : Type} [LinearOrder α] (a b : α) :
    (cmpLin a b).swap = cmpLin b a := by
  rcases lt_trichotomy a b with h | h | h
  · simp [cmpLin, h, lt_asymm h, Ordering.swap]
  · simp [cmpLin, h, lt_irrefl, Ordering.swap]
  · simp [cmpLin, h, lt_asymm h, Ordering.swap]

theorem compareSql_swap (v w : Value) :
    (Value.compareSql v w).swap = Value.compareSql w v := by
  cases v <;> cases w <;> first | rfl | exact cmpLin_swap _ _

theorem compareSql_lt_trans {u v w : Value} (h1 : Value.compareSql u v = .lt)
    (h2 : Value.compareSql v w = .lt) : Value.compareSql u w = .lt := by
  cases u <;> cases v <;> cases w <;>
    simp_all [Value.compareSql, cmpLin_lt_iff]
  · exact lt_trans h1 h2
  · exact lt_trans h1 h2

theorem cmpRows_swap (cols : List String) (r1 r2 : RawRow) :
    (cmpRows cols r1 r2).swap = cmpRows cols r2 r1 := by
  induction cols with
  | nil => rfl
  | cons c cs ih =>
    simp only [cmpRows]
    rcases h : Value.compareSql (r1.colVal c) (r2.colVal c) with _ | _ | _
    · have h2 : Value.compareSql (r2.colVal c) (r1.colVal c) = .gt := by
        rw [← compareSql_swap, h]; rfl
      simp [h2, Ordering.swap]
    · have h2 : Value.compareSql (r2.colVal c) (r1.colVal c) = .eq := by
        rw [← compareSql_swap, h]; rfl
      simp [h2, ih]
    · have h2 : Value.compareSql (r2.colVal c) (r1.colVal c) = .lt := by
        rw [← compareSql_swap, h]; rfl
      simp [h2, Ordering.swap]

theorem cmpRows_le_trans {cols : List String} {r1 r2 r3 : RawRow}
    (h1 : cmpRows cols r1 r2 ≠ .gt) (h2 : cmpRows cols r2 r3 ≠ .gt) :
    cmpRows cols r1 r3 ≠ .gt := by
  induction cols with
  | nil => simp [cmpRows]
  | cons c cs ih =>
    simp only [cmpRows] at h1 h2 ⊢
    rcases ha : Value.compareSql (r1.colVal c) (r2.colVal c) with _ | _ | _ <;>
      rcases hb : Value.compareSql (r2.colVal c) (r3.colVal c) with _ | _ | _ <;>
      rw [ha] at h1 <;> rw [hb] at h2
    · simp [compareSql_lt_trans ha hb]
    · rw [(compareSql_eq_iff _ _).mp hb] at ha
      simp [ha]
    · simp at h2
    · rw [← (compareSql_eq_iff _ _).mp ha] at hb
      simp [hb]
    · rw [(compareSql_eq_iff _ _).mp hb] at ha
      rw [ha]
      simpa using fun hc => ih (by simpa using h1) (by simpa using h2) hc
    · simp at h2
    · simp at h1
    · simp at h1
    · simp at h1

theorem ordering_bne_iff (x y : Ordering) : (x != y) = true ↔ x ≠ y := by
  cases x <;> cases y <;> decide

theorem rowLe_trans (cols : List String) (rev : Bool) (a b c : RawRow)
    (h1 : rowLe cols rev a b = true) (h2 : rowLe cols rev b c = true) :
    rowLe cols rev a c = true := by
  cases rev with
  | false =>
    have g1 : cmpRows cols a b ≠ .gt := by simpa [rowLe, ordering_bne_iff] using h1
    have g2 : cmpRows cols b c ≠ .gt := by simpa [rowLe, ordering_bne_iff] using h2
    simpa [rowLe, ordering_bne_iff] using cmpRows_le_trans g1 g2
  | true =>
    have g1 : cmpRows cols a b ≠ .lt := by simpa [rowLe, ordering_bne_iff] using h1
    have g2 : cmpRows cols b c ≠ .lt := by simpa [rowLe, ordering_bne_iff] using h2
    have f1 : cmpRows cols b a ≠ .gt := by
      rw [← cmpRows_swap]
      cases h : cmpRows cols a b <;> simp_all [Ordering.swap]
    have f2 : cmpRows cols c b ≠ .gt := by
      rw [← cmpRows_swap]
      cases h : cmpRows cols b c <;> simp_all [Ordering.swap]
    have f3 := cmpRows_le_trans f2 f1
    have f4 : cmpRows cols a c ≠ .lt := by
      intro hc
      apply f3
      rw [← cmpRows_swap, hc]
      rfl
    simpa [rowLe, ordering_bne_iff] using f4

theorem rowLe_total (cols : List String) (rev : Bool) (a b : RawRow) :
    (rowLe cols rev a b || rowLe cols rev b a) = true := by
  have hs := cmpRows_swap cols a b
  rcases h : cmpRows cols a b with _ | _ | _ <;> rw [h] at hs <;>
    cases rev <;> simp [rowLe, h, ← hs, Ordering.swap, ordering_bne_iff]

theorem encodeRow_path (ph : Photo) : ph.encodeRow.path = .Text ph.path := rfl

theorem map_dec_filter (rows : List RawRow) (p : String)
    (h : ∀ r ∈ rows, ∃ ph : Photo, ph.encodeRow = r) :
    (rows.filter (fun r => r.path == .Text p)).map decPhoto =
      (rows.filterMap (fun r => (row_to_photo r).toOption)).filter
        (fun ph => ph.path == p) := by
  induction rows with
  | nil => rfl
  | cons r rs ih =>
    obtain ⟨ph, hph⟩ := h r (by simp)
    have ihr := ih (fun x hx => h x (by simp [hx]))
    subst hph
    by_cases hp : ph.path = p
    · simp [List.filter_cons, List.filterMap_cons, encodeRow_path, hp,
            row_to_photo_encodeRow, Except.toOption, decPhoto_encodeRow, ihr]
    · simp [List.filter_cons, List.filterMap_cons, encodeRow_path, hp,
            row_to_photo_encodeRow, Except.toOption, ihr]

theorem get_photos_in_path_spec (db : Db) (p : String) (cols : List String)
    (rev : Bool) (hwf : db.WF) (hne : cols ≠ [])
    (hcols : ∀ c ∈ cols, c ∈ photoColumns) :
    ∃ l, get_photos_in_path db p cols rev = .ok l ∧
      l.Perm (db.photos.filter (fun ph => ph.path == p)) ∧
      l.Pairwise (fun a b => photoLe cols rev a b = true) := by
  have h1 : cols.isEmpty = false := by
    cases cols with
    | nil => exact absurd rfl hne
    | cons a l => rfl
  have h2 : cols.all (fun c => photoColumns.contains c) = true := by
    rw [List.all_eq_true]
    intro c hc
    exact List.elem_iff.mpr (hcols c hc)
  have hsub : ∀ r ∈ (db.rows.filter (fun r => r.path == .Text p)).mergeSort
      (rowLe cols rev), ∃ ph : Photo, ph.encodeRow = r := by
    intro r hr
    exact hwf r (List.mem_of_mem_filter (List.mem_mergeSort.mp hr))
  have hdec := decodeRows_ok_of_wf _ hsub
  refine ⟨((db.rows.filter (fun r => r.path == .Text p)).mergeSort
    (rowLe cols rev)).map decPhoto, ?_, ?_, ?_⟩
  · simp only [get_photos_in_path, h1, h2, Bool.not_true, Bool.or_false,
      Bool.false_eq_true, if_false]
    rw [hdec]
  · have hperm := (List.mergeSort_perm (db.rows.filter (fun r => r.path == .Text p))
      (rowLe cols rev)).map decPhoto
    rw [map_dec_filter db.rows p hwf] at hperm
    exact hperm
  · have hsorted := List.sorted_mergeSort (rowLe_trans cols rev) (rowLe_total cols rev)
      (db.rows.filter (fun r => r.path == .Text p))
    rw [List.pairwise_map]
    refine List.Pairwise.imp_of_mem ?_ hsorted
    intro r1 r2 hm1 hm2 hle
    obtain ⟨ph1, hp1⟩ := hsub r1 hm1
    obtain ⟨ph2, hp2⟩ := hsub r2 hm2
    subst hp1 hp2
    simpa [photoLe, decPhoto_encodeRow] using hle

/-- C5: with a well-formed catalog, a non-empty list of genuine column
names and either direction flag, get_photos_in_path returns Ok with
exactly the records whose path equals the argument (a permutation of that
filtered set), arranged so that consecutive records are ordered
lexicographically by the supplied columns, every column ascending when the
reverse flag is false and every column descending when it is true. -/
theorem photos_in_path_sorted (db : Db) (p : String) (cols : List String)
    (rev : Bool) (hwf : db.WF) (hne : cols ≠ [])
    (hcols : ∀ c ∈ cols, c ∈ photoColumns) :
    ∃ l, get_photos_in_path db p cols rev = .ok l ∧
      l.Perm (db.photos.filter (fun ph => ph.path == p)) ∧
      l.Pairwise (fun a b => photoLe cols rev a b = true) :=
  get_photos_in_path_spec db p cols rev hwf hne hcols

/-- Catalog with two records sharing the path /a, filenames out of order. -/
def sortDb : Db :=
  ⟨[(phW "b.jpg" "/a" "s1").encodeRow, (phW "a.jpg" "/a" "s2").encodeRow], 3⟩

theorem photos_in_path_sorted_witness :
    ∃ l, get_photos_in_path sortDb "/a" ["filename"] false = .ok l ∧
      l.Perm (sortDb.photos.filter (fun ph => ph.path == "/a")) ∧
      l.Pairwise (fun a b => photoLe ["filename"] false a b = true) :=
  photos_in_path_sorted sortDb "/a" ["filename"] false
    (by
      intro r hr
      simp [sortDb] at hr
      rcases hr with h | h <;> exact ⟨_, h.symm⟩)
    (by simp)
    (by
      intro c hc
      simp at hc
      subst hc
      simp [photoColumns])

/-- The Photo record produced by inserting ph: the four inserted fields,
the storage-assigned key, and blank defaults everywhere else. -/
def insertedPhoto (nextId : Int) (ph : Photo) : Photo :=
  { Photo.blank with
    id := nextId
    filename := ph.filename
    path := ph.path
    uid := ph.uid
    md5 := ph.md5 }

theorem insertedRow_eq (nextId : Int) (ph : Photo) :
    insertedRow nextId ph = (insertedPhoto nextId ph).encodeRow := rfl

/-- C7: inserting a photo whose uid is fresh succeeds, and querying
get_photos_in_path for its path afterwards yields a record whose
filename, path, uid and md5 equal the inserted values, all storage-only
fields holding their blank defaults and the key being the storage-assigned
one. -/
theorem insert_roundtrip (db : Db) (ph : Photo) (hwf : db.WF)
    (hfresh : ∀ r ∈ db.rows, r.uid ≠ .Text ph.uid) :
    (insert_photos db [ph]).2 = .ok () ∧
    ∃ l, get_photos_in_path (insert_photos db [ph]).1 ph.path ["filename"] false =
        .ok l ∧
      ∃ q ∈ l, q.filename = ph.filename ∧ q.path = ph.path ∧ q.uid = ph.uid ∧
        q.md5 = ph.md5 ∧ q = insertedPhoto db.nextId ph := by
  have hio := insertOne_fresh db ph hfresh
  have hins : insert_photos db [ph] =
      (⟨db.rows ++ [insertedRow db.nextId ph], db.nextId + 1⟩, .ok ()) := by
    simp [insert_photos, hio]
  have hwf1 : Db.WF ⟨db.rows ++ [insertedRow db.nextId ph], db.nextId + 1⟩ := by
    intro r hr
    simp at hr
    rcases hr with hr | hr
    · exact hwf r hr
    · exact ⟨insertedPhoto db.nextId ph, by rw [hr, insertedRow_eq]⟩
  have hcols1 : ∀ c ∈ (["filename"] : List String), c ∈ photoColumns := by
    intro c hc
    simp at hc
    subst hc
    simp [photoColumns]
  obtain ⟨l, hok, hperm, hsort⟩ := get_photos_in_path_spec
    ⟨db.rows ++ [insertedRow db.nextId ph], db.nextId + 1⟩ ph.path ["filename"]
    false hwf1 (by simp) hcols1
  refine ⟨by rw [hins], l, by rw [hins]; exact hok, insertedPhoto db.nextId ph, ?_, ?_⟩
  · rw [hperm.mem_iff, List.mem_filter]
    constructor
    · show insertedPhoto db.nextId ph ∈
        (db.rows ++ [insertedRow db.nextId ph]).filterMap
          (fun r => (row_to_photo r).toOption)
      apply List.mem_filterMap.mpr
      refine ⟨insertedRow db.nextId ph, by simp, ?_⟩
      rw [insertedRow_eq, row_to_photo_encodeRow]
      rfl
    · simp [insertedPhoto]
  · simp [insertedPhoto]

theorem insert_roundtrip_witness :
    (insert_photos exampleDb [phW "new.jpg" "/n" "u9"]).2 = .ok () ∧
    ∃ l, get_photos_in_path (insert_photos exampleDb [phW "new.jpg" "/n" "u9"]).1
        (phW "new.jpg" "/n" "u9").path ["filename"] false = .ok l ∧
      ∃ q ∈ l, q.filename = (phW "new.jpg" "/n" "u9").filename ∧
        q.path = (phW "new.jpg" "/n" "u9").path ∧
        q.uid = (phW "new.jpg" "/n" "u9").uid ∧
        q.md5 = (phW "new.jpg" "/n" "u9").md5 ∧
        q = insertedPhoto exampleDb.nextId (phW "new.jpg" "/n" "u9") :=
  insert_roundtrip exampleDb (phW "new.jpg" "/n" "u9")
    (by
      intro r hr
      simp [exampleDb] at hr
      rcases hr with h | h | h <;> exact ⟨_, h.symm⟩)
    (by decide)

theorem remove_move_missing_uid_noop_witness :
    remove_photos exampleDb [phW "x.jpg" "/x" "zz"] = (exampleDb, .ok ()) ∧
    move_photos exampleDb [(phW "x.jpg" "/x" "zz", phW "y.jpg" "/y" "zz")] =
      (exampleDb, .ok ()) :=
  remove_move_missing_uid_noop exampleDb (phW "x.jpg" "/x" "zz")
    (phW "y.jpg" "/y" "zz") (by decide)

theorem insertedRow_uid (nextId : Int) (p : Photo) :
    (insertedRow nextId p).uid = .Text p.uid := rfl

theorem uidList_eq_map (rows : List RawRow)
    (h : ∀ r ∈ rows, ∃ s : String, r.uid = .Text s) :
    rows.filterMap (fun r => (getString r.uid).toOption) =
      (rows.map RawRow.uid).map decText := by
  induction rows with
  | nil => rfl
  | cons r rs ih =>
    obtain ⟨s, hs⟩ := h r (by simp)
    have iht := ih (fun x hx => h x (by simp [hx]))
    simp only [List.filterMap_cons, List.map_cons]
    rw [hs, iht]
    simp [getString, decText, Except.toOption]

theorem runInserts_spec (db : Db) (photos : List Photo)
    (hnodup : (photos.map Photo.uid).Nodup)
    (hfresh : ∀ p ∈ photos, ∀ r ∈ db.rows, r.uid ≠ .Text p.uid) :
    (∀ res ∈ (runInserts db photos).2, res = .ok ()) ∧
    (runInserts db photos).1.rows.map RawRow.uid =
      db.rows.map RawRow.uid ++ photos.map (fun p => Value.Text p.uid) := by
  induction photos generalizing db with
  | nil => simp [runInserts]
  | cons p ps ih =>
    have hfp : ∀ r ∈ db.rows, r.uid ≠ .Text p.uid := hfresh p (by simp)
    have hio := insertOne_fresh db p hfp
    have hstep : insert_photos db [p] =
        (⟨db.rows ++ [insertedRow db.nextId p], db.nextId + 1⟩, .ok ()) := by
      simp [insert_photos, hio]
    rw [List.map_cons] at hnodup
    have hnd := List.nodup_cons.mp hnodup
    have hfresh2 : ∀ q ∈ ps,
        ∀ r ∈ (⟨db.rows ++ [insertedRow db.nextId p], db.nextId + 1⟩ : Db).rows,
        r.uid ≠ .Text q.uid := by
      intro q hq r hr
      simp at hr
      rcases hr with hr | hr
      · exact hfresh q (by simp [hq]) r hr
      · subst hr
        rw [insertedRow_uid]
        intro hc
        apply hnd.1
        rw [List.mem_map]
        exact ⟨q, hq, (Value.Text.inj hc).symm⟩
    obtain ⟨ihok, ihmap⟩ :=
      ih ⟨db.rows ++ [insertedRow db.nextId p], db.nextId + 1⟩ hnd.2 hfresh2
    constructor
    · intro res hres
      simp only [runInserts, hstep] at hres
      rcases List.mem_cons.mp hres with hres | hres
      · exact hres
      · exact ihok res hres
    · simp only [runInserts, hstep]
      rw [ihmap]
      simp [insertedRow_uid, List.append_assoc]

/-- C9: the guard serializes concurrent callers, so N callers each
inserting one photo behave as the N single-photo inserts run sequentially
in some arrival order; for every arrival order of photos with pairwise
distinct uids all fresh for the catalog, every insert returns Ok and a
subsequent get_existing_uids returns exactly the previous identifiers
followed by the N new ones, each of the N appearing exactly once. -/
theorem concurrent_distinct_inserts (db : Db) (photos : List Photo)
    (htext : ∀ r ∈ db.rows, ∃ s : String, r.uid = .Text s)
    (hnodup : (photos.map Photo.uid).Nodup)
    (hfresh : ∀ p ∈ photos, ∀ r ∈ db.rows, r.uid ≠ .Text p.uid) :
    (∀ res ∈ (runInserts db photos).2, res = .ok ()) ∧
    ∃ uids, get_existing_uids (runInserts db photos).1 = .ok uids ∧
      uids = db.uidList ++ photos.map Photo.uid ∧
      ∀ p ∈ photos, uids.count p.uid = 1 := by
  obtain ⟨hok, hmap⟩ := runInserts_spec db photos hnodup hfresh
  refine ⟨hok, ?_⟩
  have htext2 : ∀ v ∈ (runInserts db photos).1.rows.map RawRow.uid,
      ∃ s : String, v = .Text s := by
    rw [hmap]
    intro v hv
    rcases List.mem_append.mp hv with hv | hv
    · obtain ⟨r, hr, hrv⟩ := List.mem_map.mp hv
      obtain ⟨s, hs⟩ := htext r hr
      exact ⟨s, by rw [← hrv, hs]⟩
    · obtain ⟨q, hq, hqv⟩ := List.mem_map.mp hv
      exact ⟨q.uid, hqv.symm⟩
  have hdec := decodeStrings_ok_of_text _ htext2
  have huids : ((runInserts db photos).1.rows.map RawRow.uid).map decText =
      db.uidList ++ photos.map Photo.uid := by
    rw [hmap, List.map_append]
    congr 1
    · exact (uidList_eq_map db.rows htext).symm
    · rw [List.map_map]
      rfl
  refine ⟨((runInserts db photos).1.rows.map RawRow.uid).map decText, ?_, huids, ?_⟩
  · simp only [get_existing_uids]
    rw [hdec]
  · intro p hp
    rw [huids, List.count_append]
    have hz : db.uidList.count p.uid = 0 := by
      rw [List.count_eq_zero]
      intro hmem
      obtain ⟨r, hr, hx⟩ := List.mem_filterMap.mp hmem
      have hru : r.uid = .Text p.uid := by
        cases hv : r.uid <;> rw [hv] at hx <;>
          simp [getString, Except.toOption] at hx
        rw [hx]
      exact hfresh p hp r hr hru
    have ho : (photos.map Photo.uid).count p.uid = 1 :=
      List.count_eq_one_of_mem hnodup (List.mem_map.mpr ⟨p, hp, rfl⟩)
    rw [hz, ho]

theorem concurrent_distinct_inserts_witness :
    (∀ res ∈ (runInserts ⟨[], 1⟩
        [phW "a.jpg" "/p" "w1", phW "b.jpg" "/p" "w2"]).2, res = .ok ()) ∧
    ∃ uids, get_existing_uids (runInserts ⟨[], 1⟩
        [phW "a.jpg" "/p" "w1", phW "b.jpg" "/p" "w2"]).1 = .ok uids ∧
      uids = Db.uidList ⟨[], 1⟩ ++
        [phW "a.jpg" "/p" "w1", phW "b.jpg" "/p" "w2"].map Photo.uid ∧
      ∀ p ∈ [phW "a.jpg" "/p" "w1", phW "b.jpg" "/p" "w2"],
        uids.count p.uid = 1 :=
  concurrent_distinct_inserts ⟨[], 1⟩
    [phW "a.jpg" "/p" "w1", phW "b.jpg" "/p" "w2"]
    (by simp) (by decide) (by simp)

end Niobium
